import Mathlib

/-!
# devcerts: the certutil package

A shallow embedding of `certutil/certutil.go` (type `Store`, the functions `Load`,
`Store.New`, `Store.WriteCert`, `Store.WriteIntermediates`, `Store.WriteRoot`,
`Store.WriteKey` and `writePem`).

The Go standard library (`encoding/pem`, `crypto/x509`, `crypto/rsa`, `crypto/rand`,
`net`, `time`, `fmt`) is not part of the repository.  Every library call of the source
is a field of the structure `Lib`; the code of the package is translated over an
arbitrary `Lib`.  Randomness and the clock are threaded as an explicit state `Ω`, the
state of an `io.Writer` is a value of type `W`.
-/

set_option autoImplicit false

namespace certutil

/-! ## Data model -/

/-- A Go byte slice. -/
abbrev Bytes := List Nat

/-- A Go `error` value that is not nil, as the text it carries. -/
abbrev Error := String

/-- A `time.Time` instant. -/
abbrev Time := Int

/-- A `net.IP`: a byte slice, the nil slice being the list without elements. -/
abbrev IP := List Nat

/-- The type `pem.Block`: `Type` (here `type`), `Headers` and `Bytes`. -/
structure Block where
  type : String
  Headers : List (String × String)
  Bytes : Bytes
deriving DecidableEq, Repr

/-- The fields of `pkix.Name` that the package sets or that its tests read. -/
structure Name where
  Country : List String
  Organization : List String
  OrganizationalUnit : List String
  Locality : List String
  Province : List String
  CommonName : String
deriving DecidableEq, Repr

/-- The fields of `x509.Certificate` that the package sets or reads. -/
structure Certificate where
  Raw : Bytes
  SerialNumber : Int
  Subject : Name
  NotBefore : Time
  NotAfter : Time
  DNSNames : List String
  IPAddresses : List IP
deriving DecidableEq, Repr

/-- The type `rsa.PublicKey`. -/
structure RsaPublicKey where
  N : Nat
  E : Nat
deriving DecidableEq, Repr

/-- The type `rsa.PrivateKey` (without the precomputed values). -/
structure RsaPrivateKey where
  PublicKey : RsaPublicKey
  D : Nat
  Primes : List Nat
deriving DecidableEq, Repr

/-- The type `ecdsa.PublicKey`, the curve given by its name. -/
structure EcdsaPublicKey where
  Curve : String
  X : Nat
  Y : Nat
deriving DecidableEq, Repr

/-- The type `ecdsa.PrivateKey`. -/
structure EcdsaPrivateKey where
  PublicKey : EcdsaPublicKey
  D : Nat
deriving DecidableEq, Repr

/-- The dynamic type of the `interface{}` held in `Store.key`: the two pointer types the
type switch of `WriteKey` names, and every other dynamic type (for instance an Ed25519
key returned by `x509.ParsePKCS8PrivateKey`), given by a description; the nil interface
of the zero Store is `other "<nil>"`. -/
inductive Key where
  | rsa (k : RsaPrivateKey)
  | ecdsa (k : EcdsaPrivateKey)
  | other (desc : String)
deriving DecidableEq, Repr

/-- The method `(*rsa.PrivateKey).Public`. -/
def RsaPrivateKey.Public (k : RsaPrivateKey) : RsaPublicKey := k.PublicKey

/-- Store holds an x509 certificate, its corresponding private key, and all certs in its
trust chain; index 0 of `chain` is the root of the trust chain.  The pointer `cert` is
`none` when it is nil, as in the zero value `Store{}` that `Load` and `New` return
beside an error.  The entries of `chain` are the certificates pointed to: `New` only
succeeds on a Store whose `cert` is not nil, so a chain never holds a nil pointer. -/
structure Store where
  key : Key
  cert : Option Certificate
  chain : List Certificate
deriving DecidableEq, Repr

/-- What a call that returns `(Store, error)` can do: return a Store and a nil error
(`ok`), return `Store{}` and an error that is not nil (`error`), or end the process in
`log.Fatal` (`fatal`). -/
inductive Outcome (α : Type) where
  | ok (v : α)
  | error (err : Error)
  | fatal (err : Error)
deriving DecidableEq, Repr

/-! ## The standard library -/

/-- The library calls of the source.  `Ω` is the state of `rand.Reader` and of the
clock, `W` the state of an `io.Writer`. -/
structure Lib (Ω W : Type) where
  /-- Decoding with `pem.Decode`: the first result, `none` for a nil block. -/
  pemDecode : Bytes → Option Block
  /-- Encoding with `pem.Encode`: the error it returns and the writer afterwards. -/
  pemEncode : W → Block → Option Error × W
  /-- Parsing with `x509.ParseCertificate`. -/
  parseCertificate : Bytes → Except Error Certificate
  /-- Parsing with `x509.ParsePKCS8PrivateKey`. -/
  parsePKCS8PrivateKey : Bytes → Except Error Key
  /-- Parsing with `x509.ParsePKCS1PrivateKey`. -/
  parsePKCS1PrivateKey : Bytes → Except Error RsaPrivateKey
  /-- Parsing with `x509.ParseECPrivateKey`. -/
  parseECPrivateKey : Bytes → Except Error EcdsaPrivateKey
  /-- Marshalling with `x509.MarshalPKCS1PrivateKey`. -/
  marshalPKCS1PrivateKey : RsaPrivateKey → Bytes
  /-- Marshalling with `x509.MarshalECPrivateKey`. -/
  marshalECPrivateKey : EcdsaPrivateKey → Except Error Bytes
  /-- Key generation with `rsa.GenerateKey(rand.Reader, bits)`. -/
  generateKey : Ω → Nat → Except Error RsaPrivateKey × Ω
  /-- Drawing with `rand.Int(rand.Reader, max)`. -/
  randInt : Ω → Nat → Except Error Nat × Ω
  /-- Reading the clock with `time.Now().UTC()`. -/
  now : Ω → Time × Ω
  /-- The method `Time.AddDate(years, months, days)`. -/
  addDate : Time → Int → Int → Int → Time
  /-- Parsing with `net.ParseIP`. -/
  parseIP : String → IP
  /-- The method `IP.String`. -/
  ipString : IP → String
  /-- Signing with `x509.CreateCertificate(rand.Reader, template, parent, pub, priv)`. -/
  createCertificate : Ω → Certificate → Certificate → RsaPublicKey → Key → Except Error Bytes × Ω
  /-- Signing with `x509.CreateCertificate` when the parent is a nil pointer: after its
  first checks the function dereferences the parent, so it returns an error or panics
  (a panic is given as an error), and never a certificate. -/
  createCertificateNilParent : Ω → Certificate → RsaPublicKey → Key → Error × Ω
  /-- Formatting a key with the verb `%v`. -/
  sprintKey : Key → String

variable {Ω W : Type}

/-! ## Slices -/

/-- The zero value of `x509.Certificate`.  It fills the slots that `make` allocates
(nil pointers in the source); `New` overwrites every one of them. -/
def Certificate.zero : Certificate :=
  { Raw := [], SerialNumber := 0,
    Subject := { Country := [], Organization := [], OrganizationalUnit := [],
                 Locality := [], Province := [], CommonName := "" },
    NotBefore := 0, NotAfter := 0, DNSNames := [], IPAddresses := [] }

/-- The builtin `make([]*x509.Certificate, n)`. -/
def make (n : Nat) : List Certificate := List.replicate n Certificate.zero

/-- The builtin `copy(dst, src)`: the first `min (len dst) (len src)` slots of `dst` are
overwritten with those of `src`; the result is `dst` afterwards. -/
def copy (dst src : List Certificate) : List Certificate :=
  src.take dst.length ++ dst.drop src.length

/-! ## certutil.go -/

/-- The function `writePem`. -/
def writePem (L : Lib Ω W) (w : W) (b : Bytes) (header : String) : Option Error × W :=
  match L.pemEncode w { Bytes := b, type := header, Headers := [] } with
  | (some err, w1) => (some err, w1)
  | (none, w1) => (none, w1)

/-- The zero value `Store{}`: nil key, nil certificate, nil chain. -/
def Store.zero : Store := { key := .other "<nil>", cert := none, chain := [] }

/-- WriteCert writes the PEM-encoded ASN.1 DER representation of the certificate.
Reading `s.cert.Raw` through a nil `s.cert` is a run-time panic in Go, given here as an
error. -/
def Store.WriteCert (L : Lib Ω W) (s : Store) (w : W) : Option Error × W :=
  match s.cert with
  | none => (some "panic: runtime error: invalid memory address or nil pointer dereference", w)
  | some cert => writePem L w cert.Raw "CERTIFICATE"

/-- The loop of `WriteIntermediates`, entered with loop variable `i`: it runs while
`i >= 1`. An index outside the slice is a run-time panic in Go, given here as an error. -/
def writeIntermediatesLoop (L : Lib Ω W) (chain : List Certificate) : Nat → W → Option Error × W
  | 0, w => (none, w)
  | i + 1, w =>
    match chain.get? (i + 1) with
    | none => (some "panic: index out of range", w)
    | some c =>
      match writePem L w c.Raw "CERTIFICATE" with
      | (some err, w1) => (some err, w1)
      | (none, w1) => writeIntermediatesLoop L chain i w1

/-- WriteIntermediates writes the PEM-encoded ASN.1 DER representation of all of the
intermediate certs in the chain of trust.  The loop variable starts at
`len(s.chain) - 1`, an `int` (it is `-1` for the empty chain, where the loop does not
run, as it does not for `0`). -/
def Store.WriteIntermediates (L : Lib Ω W) (s : Store) (w : W) : Option Error × W :=
  writeIntermediatesLoop L s.chain ((s.chain.length : Int) - 1).toNat w

/-- WriteRoot writes the PEM-encoded ASN.1 DER representation of the root certificate
in the chain of trust. -/
def Store.WriteRoot (L : Lib Ω W) (s : Store) (w : W) : Option Error × W :=
  if s.chain.length = 0 then (none, w)
  else
    match s.chain.get? 0 with
    | none => (some "panic: index out of range", w)
    | some c => writePem L w c.Raw "CERTIFICATE"

/-- WriteKey writes the PEM-encoded ASN.1 DER representation of the private key. -/
def Store.WriteKey (L : Lib Ω W) (s : Store) (w : W) : Option Error × W :=
  match s.key with
  | .rsa key => writePem L w (L.marshalPKCS1PrivateKey key) "RSA PRIVATE KEY"
  | .ecdsa key =>
    match L.marshalECPrivateKey key with
    | .error err => (some err, w)
    | .ok buf => writePem L w buf "EC PRIVATE KEY"
  | .other _ => (some ("Unknown private key type " ++ L.sprintKey s.key), w)

/-- The end of `Load`, after the switch on the label of the key block: `log.Fatal` on a
parse error, the Store with a nil chain otherwise. -/
def loadFinish (cert : Certificate) : Except Error Key → Outcome Store
  | .error err => .fatal err
  | .ok key => .ok { key := key, cert := some cert, chain := [] }

/-- Load creates a certificate from a PEM-encoded certificate and private key. -/
def Load (L : Lib Ω W) (certPem keyPem : Bytes) : Outcome Store :=
  match L.pemDecode certPem with
  | none => .error "Certificate is not in PEM format"
  | some certBlock =>
    if certBlock.type ≠ "CERTIFICATE" then
      .error "Provided certificate PEM is not a 'CERTIFICATE'"
    else
      match L.parseCertificate certBlock.Bytes with
      | .error err => .error err
      | .ok cert =>
        match L.pemDecode keyPem with
        | none => .error "Key is not in PEM format"
        | some keyBlock =>
          if keyBlock.type = "PRIVATE KEY" then
            loadFinish cert (L.parsePKCS8PrivateKey keyBlock.Bytes)
          else if keyBlock.type = "RSA PRIVATE KEY" then
            loadFinish cert ((L.parsePKCS1PrivateKey keyBlock.Bytes).map Key.rsa)
          else if keyBlock.type = "EC PRIVATE KEY" then
            loadFinish cert ((L.parseECPrivateKey keyBlock.Bytes).map Key.ecdsa)
          else
            .error "Provided key PEM is not a private key"

/-- The certificate template that `New` fills in. -/
def newTemplate (serial : Int) (commonName : String) (dnsNames : List String)
    (ips : List IP) (now notAfter : Time) : Certificate :=
  { Raw := [],
    SerialNumber := serial,
    Subject :=
      { CommonName := commonName,
        Organization := ["jmn.link"],
        Country := ["CA"],
        Locality := ["Kingston"],
        OrganizationalUnit := ["IT"],
        Province := ["Ontario"] },
    DNSNames := dnsNames,
    IPAddresses := ips,
    NotAfter := notAfter,
    NotBefore := now }

/-- New creates a new non-CA certificate signed by the current certificate.  The parent
handed to `x509.CreateCertificate` is `s.cert`; with a nil `s.cert` that call returns no
certificate, so the assignment `chain[len(chain)-1] = s.cert` is only reached with a
certificate. -/
def Store.New (L : Lib Ω W) (s : Store) (ω : Ω) (commonName : String)
    (dnsNames ipAddresses : List String) : Except Error Store × Ω :=
  match L.generateKey ω 2048 with
  | (.error err, ω1) => (.error err, ω1)
  | (.ok key, ω1) =>
    match L.randInt ω1 (2 <<< 60) with
    | (.error err, ω2) => (.error err, ω2)
    | (.ok serial, ω2) =>
      let ips := ipAddresses.map L.parseIP
      match L.now ω2 with
      | (now, ω3) =>
        let template := newTemplate serial commonName dnsNames ips now (L.addDate now 100 0 0)
        match s.cert with
        | none =>
          match L.createCertificateNilParent ω3 template key.Public s.key with
          | (err, ω4) => (.error err, ω4)
        | some parent =>
          match L.createCertificate ω3 template parent key.Public s.key with
          | (.error err, ω4) => (.error err, ω4)
          | (.ok certBytes, ω4) =>
            match L.parseCertificate certBytes with
            | .error err => (.error err, ω4)
            | .ok cert =>
              let chain := make (s.chain.length + 1)
              let chain := copy chain s.chain
              let chain := chain.set (chain.length - 1) parent
              (.ok { key := .rsa key, cert := some cert, chain := chain }, ω4)

/-! ## Vocabulary of the properties -/

/-- The PEM block that carries a certificate: label `CERTIFICATE`, no headers, the DER
bytes as payload. -/
def certBlock (c : Certificate) : Block :=
  { type := "CERTIFICATE", Headers := [], Bytes := c.Raw }

/-- The writer after `pem.Encode` was called on it with each of the blocks, in order. -/
def emit (L : Lib Ω W) (w : W) (blocks : List Block) : W :=
  blocks.foldl (fun acc b => (L.pemEncode acc b).2) w

/-- A sink whose writes all succeed: `pem.Encode` never returns an error on it. -/
def Lib.SinkAccepts (L : Lib Ω W) : Prop :=
  ∀ (w : W) (b : Block), (L.pemEncode w b).1 = none

/-- The arguments of one call of `New`, with the state of the world it is made in. -/
structure Call (Ω : Type) where
  world : Ω
  commonName : String
  dnsNames : List String
  ipAddresses : List String

/-- Successive calls of `New`, each on the result of the one before: the Stores
`[s, s₁, ..., sₙ]` when all `n` calls succeed, `none` as soon as one returns an error. -/
def generations (L : Lib Ω W) (s : Store) : List (Call Ω) → Option (List Store)
  | [] => some [s]
  | c :: cs =>
    match (s.New L c.world c.commonName c.dnsNames c.ipAddresses).1 with
    | .error _ => none
    | .ok child => (generations L child cs).map (fun rest => s :: rest)

/-- The certificate path of a bundle on one writer: `WriteCert`, then
`WriteIntermediates`, then `WriteRoot`, an error being returned at once as in
`zipContents`. -/
def writePath (L : Lib Ω W) (s : Store) (w : W) : Option Error × W :=
  match s.WriteCert L w with
  | (some err, w1) => (some err, w1)
  | (none, w1) =>
    match s.WriteIntermediates L w1 with
    | (some err, w2) => (some err, w2)
    | (none, w2) => s.WriteRoot L w2

/-- Documented behaviour of `x509.ParseCertificate`: the field `Raw` of the result is the
complete DER input. -/
def Lib.RawIsInput (L : Lib Ω W) : Prop :=
  ∀ (der : Bytes) (c : Certificate), L.parseCertificate der = .ok c → c.Raw = der

/-- The attributes of a name have one value each at most. -/
def Name.SingleValued (n : Name) : Prop :=
  n.Country.length ≤ 1 ∧ n.Organization.length ≤ 1 ∧ n.OrganizationalUnit.length ≤ 1 ∧
  n.Locality.length ≤ 1 ∧ n.Province.length ≤ 1

/-- Behaviour of `crypto/x509`: a certificate that `x509.CreateCertificate` made from a
template parses back to the template's subject (for a subject whose attributes are
single-valued) and DNS names, and to IP addresses with the same textual forms. -/
def Lib.X509RoundTrip (L : Lib Ω W) : Prop :=
  ∀ (ω : Ω) (template parent : Certificate) (pub : RsaPublicKey) (priv : Key)
    (der : Bytes) (ω1 : Ω) (cert : Certificate),
    L.createCertificate ω template parent pub priv = (.ok der, ω1) →
    L.parseCertificate der = .ok cert →
    template.Subject.SingleValued →
      cert.Subject = template.Subject ∧ cert.DNSNames = template.DNSNames ∧
      cert.IPAddresses.map L.ipString = template.IPAddresses.map L.ipString

/-- The key block of `Load` fails to parse under its label. -/
def keyParseFails (L : Lib Ω W) (keyBlock : Block) : Prop :=
  (keyBlock.type = "PRIVATE KEY" ∧ ∃ err, L.parsePKCS8PrivateKey keyBlock.Bytes = .error err) ∨
  (keyBlock.type = "RSA PRIVATE KEY" ∧ ∃ err, L.parsePKCS1PrivateKey keyBlock.Bytes = .error err) ∨
  (keyBlock.type = "EC PRIVATE KEY" ∧ ∃ err, L.parseECPrivateKey keyBlock.Bytes = .error err)

/-! ## A small library instance

A table-driven stand-in for the standard library, used to run the code on concrete
inputs.  DER and PEM strings are abbreviated to a few bytes; the writer state is the
list of blocks encoded so far; the world is a counter. -/

namespace fixture

/-- DER of the root certificate. -/
def rootDer : Bytes := [48, 1]
/-- DER of the leaf issued for `test.com`. -/
def leafDer : Bytes := [48, 5]
/-- DER of the leaf issued for `v6.test`. -/
def leaf6Der : Bytes := [48, 6]
/-- PKCS#1 DER of the root key. -/
def pkcs1Der : Bytes := [48, 2]
/-- PKCS#8 DER of the root key: the PKCS#1 structure wrapped with its algorithm. -/
def pkcs8Der : Bytes := [48, 3, 4, 48, 2]
/-- SEC1 DER of the elliptic-curve key. -/
def sec1Der : Bytes := [48, 7]

/-- PEM file with the root certificate. -/
def certPem : Bytes := [1]
/-- PEM file with the root key, block label `PRIVATE KEY`. -/
def keyPem : Bytes := [2]
/-- PEM file with the root key, block label `RSA PRIVATE KEY`. -/
def rsaKeyPem : Bytes := [3]
/-- PEM file with a block labelled `PUBLIC KEY`. -/
def pubPem : Bytes := [4]
/-- PEM file with a block labelled `RSA PRIVATE KEY` whose bytes are not a key. -/
def brokenKeyPem : Bytes := [5]
/-- PEM file with the elliptic-curve key, block label `EC PRIVATE KEY`. -/
def ecKeyPem : Bytes := [6]
/-- Bytes that are not PEM. -/
def notPem : Bytes := [0]

/-- The root key. -/
def rootKey : RsaPrivateKey := { PublicKey := { N := 3233, E := 17 }, D := 2753, Primes := [61, 53] }
/-- The key that `rsa.GenerateKey` returns. -/
def childKey : RsaPrivateKey := { PublicKey := { N := 4757, E := 13 }, D := 1777, Primes := [67, 71] }
/-- An elliptic-curve key. -/
def ecKey : EcdsaPrivateKey := { PublicKey := { Curve := "P-256", X := 5, Y := 1 }, D := 9 }

/-- The root certificate, `CN=jmn.link CA`. -/
def rootCert : Certificate :=
  { Raw := rootDer, SerialNumber := 1,
    Subject := { CommonName := "jmn.link CA", Organization := ["jmn.link"], Country := ["CA"],
                 Locality := ["Kingston"], OrganizationalUnit := ["IT"], Province := ["Ontario"] },
    NotBefore := 0, NotAfter := 36500, DNSNames := [], IPAddresses := [] }

/-- The address `1.2.3.4` in the 16-byte form that `net.ParseIP` returns. -/
def ip4in16 : IP := [0, 0, 0, 0, 0, 0, 0, 0, 0, 0, 255, 255, 1, 2, 3, 4]
/-- The address `::1`. -/
def ip6one : IP := [0, 0, 0, 0, 0, 0, 0, 0, 0, 0, 0, 0, 0, 0, 0, 1]

/-- Results of `net.ParseIP` on the literals used below; nil on every other string. -/
def parseIP (s : String) : IP :=
  if s = "1.2.3.4" then ip4in16
  else if s = "::1" then ip6one
  else if s = "0:0:0:0:0:0:0:1" then ip6one
  else []

/-- Results of `IP.String` on the addresses used below. -/
def ipString (ip : IP) : String :=
  if ip = ip4in16 then "1.2.3.4"
  else if ip = [1, 2, 3, 4] then "1.2.3.4"
  else if ip = ip6one then "::1"
  else if ip = [] then "<nil>"
  else "?"

/-- The method `Time.AddDate`, in days with years of 365 and months of 30 days. -/
def addDate (t : Time) (years months days : Int) : Time :=
  t + years * 365 + months * 30 + days

/-- The template of the issuance for `test.com`. -/
def leafTemplate : Certificate :=
  newTemplate 1 "test.com" ["a.b.c.com"] [ip4in16] 1000 (addDate 1000 100 0 0)
/-- The template of the issuance for `v6.test`. -/
def leaf6Template : Certificate :=
  newTemplate 1 "v6.test" [] [ip6one] 1000 (addDate 1000 100 0 0)

/-- The certificate issued for `test.com`; the IPv4 address comes back in 4 bytes. -/
def leafCert : Certificate :=
  { leafTemplate with Raw := leafDer, IPAddresses := [[1, 2, 3, 4]] }
/-- The certificate issued for `v6.test`. -/
def leaf6Cert : Certificate :=
  { leaf6Template with Raw := leaf6Der }

/-- Decoding of the PEM files above. -/
def pemDecode (b : Bytes) : Option Block :=
  if b = certPem then some { type := "CERTIFICATE", Headers := [], Bytes := rootDer }
  else if b = keyPem then some { type := "PRIVATE KEY", Headers := [], Bytes := pkcs8Der }
  else if b = rsaKeyPem then some { type := "RSA PRIVATE KEY", Headers := [], Bytes := pkcs1Der }
  else if b = pubPem then some { type := "PUBLIC KEY", Headers := [], Bytes := [48, 8] }
  else if b = brokenKeyPem then some { type := "RSA PRIVATE KEY", Headers := [], Bytes := [255] }
  else if b = ecKeyPem then some { type := "EC PRIVATE KEY", Headers := [], Bytes := sec1Der }
  else none

/-- Parsing of the certificates above. -/
def parseCertificate (der : Bytes) : Except Error Certificate :=
  if der = rootDer then .ok rootCert
  else if der = leafDer then .ok leafCert
  else if der = leaf6Der then .ok leaf6Cert
  else .error "x509: malformed certificate"

/-- Signing of the two templates above. -/
def createCertificate (ω : Nat) (template : Certificate) : Except Error Bytes × Nat :=
  if template = leafTemplate then (.ok leafDer, ω + 1)
  else if template = leaf6Template then (.ok leaf6Der, ω + 1)
  else (.error "x509: unsupported template", ω + 1)

/-- The library instance. -/
def lib : Lib Nat (List Block) :=
  { pemDecode := pemDecode,
    pemEncode := fun w b => (none, w ++ [b]),
    parseCertificate := parseCertificate,
    parsePKCS8PrivateKey := fun der =>
      if der = pkcs8Der then .ok (.rsa rootKey) else .error "x509: failed to parse private key",
    parsePKCS1PrivateKey := fun der =>
      if der = pkcs1Der then .ok rootKey else .error "x509: failed to parse private key",
    parseECPrivateKey := fun der =>
      if der = sec1Der then .ok ecKey else .error "x509: failed to parse EC private key",
    marshalPKCS1PrivateKey := fun k => if k = rootKey then pkcs1Der else [48, 9],
    marshalECPrivateKey := fun k =>
      if k = ecKey then .ok sec1Der else .error "x509: unknown elliptic curve",
    generateKey := fun ω _ => (.ok childKey, ω + 1),
    randInt := fun ω max => (.ok (ω % max), ω + 1),
    now := fun ω => (1000, ω + 1),
    addDate := addDate,
    parseIP := parseIP,
    ipString := ipString,
    createCertificate := fun ω template _ _ _ => createCertificate ω template,
    createCertificateNilParent := fun ω _ _ priv => match priv with
      | .other _ => ("x509: certificate private key does not implement crypto.Signer", ω + 1)
      | _ => ("panic: runtime error: invalid memory address or nil pointer dereference", ω + 1),
    sprintKey := fun k => match k with
      | .other desc => desc
      | _ => "&\x7b...\x7d" }

/-- The Store that `Load` builds from `certPem` and `keyPem`. -/
def root : Store := { key := .rsa rootKey, cert := some rootCert, chain := [] }
/-- The Store that `New` builds from `root` for `test.com`. -/
def leaf : Store := { key := .rsa childKey, cert := some leafCert, chain := [rootCert] }
/-- The Store that `New` builds from `leaf` for `v6.test`. -/
def leaf6 : Store :=
  { key := .rsa childKey, cert := some leaf6Cert, chain := [rootCert, leafCert] }

/-- The library instance with a sink that rejects every write. -/
def failLib : Lib Nat (List Block) :=
  { lib with pemEncode := fun w _ => (some "short write", w) }

end fixture

end certutil

namespace certutil

variable {Ω W : Type}

/-! ## Slices and `New` -/

theorem make_length (n : Nat) : (make n).length = n := by
  simp [make]

/-- Filling a fresh slice of `len xs + 1` slots with `copy` and assigning the last slot
is appending. -/
theorem copy_make_set (xs : List Certificate) (c : Certificate) :
    (copy (make (xs.length + 1)) xs).set ((copy (make (xs.length + 1)) xs).length - 1) c
      = xs ++ [c] := by
  have h1 : copy (make (xs.length + 1)) xs = xs ++ [Certificate.zero] := by
    simp [copy, make, List.take_of_length_le, List.drop_replicate]
  rw [h1]
  simp [List.set_append]

/-- What a successful call of `New` did. -/
theorem New_ok_inv (L : Lib Ω W) (s : Store) (ω : Ω) (commonName : String)
    (dnsNames ipAddresses : List String) (child : Store) (ω1 : Ω)
    (h : s.New L ω commonName dnsNames ipAddresses = (.ok child, ω1)) :
    ∃ (key : RsaPrivateKey) (serial : Nat) (now : Time) (ω3 : Ω) (der : Bytes)
      (parent cert : Certificate),
      s.cert = some parent ∧
      L.createCertificate ω3
          (newTemplate (serial : Int) commonName dnsNames (ipAddresses.map L.parseIP) now
            (L.addDate now 100 0 0)) parent key.Public s.key = (.ok der, ω1) ∧
      L.parseCertificate der = .ok cert ∧
      child.cert = some cert ∧
      child.key = .rsa key ∧
      child.chain = s.chain ++ [parent] := by
  unfold Store.New at h
  split at h
  · simp at h
  · rename_i key ωa hk
    split at h
    · simp at h
    · rename_i serial ωb hs
      split at h
      rename_i now ωc hn
      dsimp only at h
      split at h
      · simp at h
      · rename_i parent hpar
        split at h
        · simp at h
        · rename_i der ωd hc
          split at h
          · simp at h
          · rename_i cert hp
            simp only [Prod.mk.injEq, Except.ok.injEq] at h
            obtain ⟨h1, h2⟩ := h
            subst h1 h2
            exact ⟨key, serial, now, ωc, der, parent, cert, hpar, hc, hp, rfl, rfl,
              copy_make_set s.chain parent⟩

/-- C1: when `New` succeeds on a Store `s`, the chain of the child is the chain of `s`
followed by exactly one more entry, the certificate of `s`: its length is
`len(s.chain) + 1`, its first `len(s.chain)` entries are `s.chain` in the same order,
and its last entry is `s.cert`. -/
theorem New_chain_extends (L : Lib Ω W) (s : Store) (ω : Ω) (commonName : String)
    (dnsNames ipAddresses : List String) (child : Store) (ω1 : Ω)
    (h : s.New L ω commonName dnsNames ipAddresses = (.ok child, ω1)) :
    ∃ parent, s.cert = some parent ∧
      child.chain = s.chain ++ [parent] ∧
      child.chain.length = s.chain.length + 1 ∧
      child.chain.take s.chain.length = s.chain ∧
      child.chain.getLast? = some parent := by
  obtain ⟨_, _, _, _, _, parent, _, hpar, _, _, _, _, hchain⟩ :=
    New_ok_inv L s ω commonName dnsNames ipAddresses child ω1 h
  refine ⟨parent, hpar, ?_⟩
  rw [hchain]
  simp

/-- The issuance for `v6.test` from a parent whose chain is not empty. -/
theorem New_chain_extends_witness :
    fixture.leaf.New fixture.lib 0 "v6.test" [] ["0:0:0:0:0:0:0:1"] = (.ok fixture.leaf6, 4) ∧
    (∃ parent, fixture.leaf.cert = some parent ∧
      fixture.leaf6.chain = fixture.leaf.chain ++ [parent] ∧
      fixture.leaf6.chain.length = fixture.leaf.chain.length + 1 ∧
      fixture.leaf6.chain.take fixture.leaf.chain.length = fixture.leaf.chain ∧
      fixture.leaf6.chain.getLast? = some parent) :=
  ⟨rfl, New_chain_extends fixture.lib fixture.leaf 0 "v6.test" [] ["0:0:0:0:0:0:0:1"]
    fixture.leaf6 4 rfl⟩

/-! ## Chain growth -/

/-- A Store that `Load` returns has an empty chain. -/
theorem Load_ok_chain (L : Lib Ω W) (certPem keyPem : Bytes) (s : Store)
    (h : Load L certPem keyPem = .ok s) : s.chain = [] := by
  have hfin : ∀ (cert : Certificate) (r : Except Error Key),
      loadFinish cert r = .ok s → s.chain = [] := by
    intro cert r hr
    cases r with
    | error e => simp [loadFinish] at hr
    | ok k =>
      simp only [loadFinish, Outcome.ok.injEq] at hr
      rw [← hr]
  unfold Load at h
  split at h
  · simp at h
  · split at h
    · simp at h
    · split at h
      · simp at h
      · split at h
        · simp at h
        · split at h
          · exact hfin _ _ h
          · split at h
            · exact hfin _ _ h
            · split at h
              · exact hfin _ _ h
              · simp at h

/-- The Stores of `n` successive issuances: there are `n + 1` of them, the first is the
starting Store, each next one is returned by `New` on the one before, and the chain of
the last one, with its own certificate, is the chain of the first followed by the
certificates of all of them. -/
theorem generations_spec (L : Lib Ω W) (calls : List (Call Ω)) :
    ∀ (s : Store) (stores : List Store), generations L s calls = some stores →
      stores.length = calls.length + 1 ∧ stores.head? = some s ∧
      (∀ i, i < calls.length → ∃ parent child c,
        stores.get? i = some parent ∧ stores.get? (i + 1) = some child ∧
        calls.get? i = some c ∧
        (parent.New L c.world c.commonName c.dnsNames c.ipAddresses).1 = .ok child) ∧
      ∃ final, stores.getLast? = some final ∧
        final.chain.map some ++ [final.cert]
          = s.chain.map some ++ stores.map Store.cert := by
  induction calls with
  | nil =>
    intro s stores h
    simp only [generations, Option.some.injEq] at h
    subst h
    refine ⟨rfl, rfl, ?_, s, rfl, by simp⟩
    intro i hi
    simp at hi
  | cons c cs ih =>
    intro s stores h
    simp only [generations] at h
    split at h
    · simp at h
    · rename_i child hnew
      cases hrest : generations L child cs with
      | none => simp [hrest] at h
      | some rest =>
        simp only [hrest, Option.map_some', Option.some.injEq] at h
        subst h
        obtain ⟨hlen, hhead, hstep, final, hlast, hchain⟩ := ih child rest hrest
        have hchild : child.chain.map some = s.chain.map some ++ [s.cert] := by
          obtain ⟨_, _, _, _, _, parent, _, hpar, _, _, _, _, hc⟩ :=
            New_ok_inv L s c.world c.commonName c.dnsNames c.ipAddresses child
              (s.New L c.world c.commonName c.dnsNames c.ipAddresses).2
              (by rw [← hnew])
          rw [hc, hpar]
          simp
        refine ⟨by simp [hlen], rfl, ?_, final, ?_, ?_⟩
        · intro i hi
          cases i with
          | zero =>
            refine ⟨s, child, c, rfl, ?_, rfl, hnew⟩
            cases rest with
            | nil => simp at hlen
            | cons r rs =>
              simp only [List.head?_cons, Option.some.injEq] at hhead
              simp [hhead]
          | succ j =>
            have hj : j < cs.length := by simpa using hi
            obtain ⟨parent, ch, c1, h1, h2, h3, h4⟩ := hstep j hj
            exact ⟨parent, ch, c1, by simpa using h1, by simpa using h2, by simpa using h3, h4⟩
        · cases rest with
          | nil => simp at hlen
          | cons r rs => simpa [List.getLast?_cons_cons] using hlast
        · rw [hchain, hchild]
          simp

/-- C2: chain growth.  When `Load` succeeds and `n` successive calls of `New` (each on
the result of the one before, with any arguments) all succeed, the chain of the last
Store has exactly `n` entries (a freshly loaded Store, `n = 0`, has an empty chain); for
`n ≥ 1` entry 0 is the certificate of the loaded root; and for every `i < n` entry `i`
is the certificate of the Store on which the call number `i` of `New` was made, whose
result carries the certificate at position `i + 1` (the last Store's own certificate
when `i` is the last index).  Chain entries are compared as pointers, `some c`. -/
theorem chain_growth (L : Lib Ω W) (certPem keyPem : Bytes) (root : Store)
    (calls : List (Call Ω)) (stores : List Store)
    (hload : Load L certPem keyPem = .ok root)
    (hgen : generations L root calls = some stores) :
    ∃ final, stores.getLast? = some final ∧
      final.chain.length = calls.length ∧
      (calls = [] → final = root ∧ final.chain = []) ∧
      (1 ≤ calls.length → (final.chain.map some).get? 0 = some root.cert) ∧
      ∀ i, i < calls.length → ∃ parent child c,
        stores.get? i = some parent ∧ stores.get? (i + 1) = some child ∧
        calls.get? i = some c ∧
        (parent.New L c.world c.commonName c.dnsNames c.ipAddresses).1 = .ok child ∧
        (final.chain.map some).get? i = some parent.cert ∧
        (final.chain.map some ++ [final.cert]).get? (i + 1) = some child.cert := by
  obtain ⟨hlen, hhead, hstep, final, hlast, hchain⟩ := generations_spec L calls root stores hgen
  have hroot : root.chain = [] := Load_ok_chain L certPem keyPem root hload
  rw [hroot, List.map_nil, List.nil_append] at hchain
  have hflen : final.chain.length = calls.length := by
    have := congrArg List.length hchain
    simp only [List.length_append, List.length_singleton, List.length_map] at this
    omega
  have hget : ∀ k, (final.chain.map some ++ [final.cert]).get? k
      = (stores.get? k).map Store.cert := by
    intro k
    rw [hchain]
    simp
  have hleft : ∀ k, k < calls.length →
      (final.chain.map some).get? k = (stores.get? k).map Store.cert := by
    intro k hk
    rw [← hget k]
    simp only [List.get?_eq_getElem?]
    rw [List.getElem?_append_left (by simp; omega)]
  refine ⟨final, hlast, hflen, ?_, ?_, ?_⟩
  · intro hnil
    subst hnil
    simp only [generations, Option.some.injEq] at hgen
    subst hgen
    simp only [List.getLast?_singleton, Option.some.injEq] at hlast
    subst hlast
    exact ⟨rfl, hroot⟩
  · intro h1
    rw [hleft 0 (by omega)]
    cases stores with
    | nil => simp at hlen
    | cons r rs =>
      simp only [List.head?_cons, Option.some.injEq] at hhead
      simp [hhead]
  · intro i hi
    obtain ⟨parent, child, c, h1, h2, h3, h4⟩ := hstep i hi
    refine ⟨parent, child, c, h1, h2, h3, h4, ?_, ?_⟩
    · rw [hleft i hi, h1]
      rfl
    · rw [hget (i + 1), h2]
      rfl

/-- Two issuances from the loaded root: `root`, then `test.com`, then `v6.test`. -/
theorem chain_growth_witness :
    ∃ final, [fixture.root, fixture.leaf, fixture.leaf6].getLast? = some final ∧
      final.chain.length = 2 ∧
      (([⟨0, "test.com", ["a.b.c.com"], ["1.2.3.4"]⟩,
         ⟨0, "v6.test", [], ["0:0:0:0:0:0:0:1"]⟩] : List (Call Nat)) = [] →
        final = fixture.root ∧ final.chain = []) ∧
      (1 ≤ 2 → (final.chain.map some).get? 0 = some fixture.root.cert) ∧
      ∀ i, i < 2 → ∃ parent child c,
        [fixture.root, fixture.leaf, fixture.leaf6].get? i = some parent ∧
        [fixture.root, fixture.leaf, fixture.leaf6].get? (i + 1) = some child ∧
        ([⟨0, "test.com", ["a.b.c.com"], ["1.2.3.4"]⟩,
          ⟨0, "v6.test", [], ["0:0:0:0:0:0:0:1"]⟩] : List (Call Nat)).get? i = some c ∧
        (parent.New fixture.lib c.world c.commonName c.dnsNames c.ipAddresses).1 = .ok child ∧
        (final.chain.map some).get? i = some parent.cert ∧
        (final.chain.map some ++ [final.cert]).get? (i + 1) = some child.cert :=
  chain_growth fixture.lib fixture.certPem fixture.keyPem fixture.root
    [⟨0, "test.com", ["a.b.c.com"], ["1.2.3.4"]⟩, ⟨0, "v6.test", [], ["0:0:0:0:0:0:0:1"]⟩]
    [fixture.root, fixture.leaf, fixture.leaf6] (by decide) (by decide)

/-! ## Export -/

theorem writePem_eq (L : Lib Ω W) (w : W) (b : Bytes) (header : String) :
    writePem L w b header = L.pemEncode w { type := header, Headers := [], Bytes := b } := by
  unfold writePem
  split
  · rename_i h
    exact h.symm
  · rename_i h
    exact h.symm

/-- On a sink that accepts every write, `writePem` returns nil and leaves the writer
with one more block. -/
theorem writePem_accepts (L : Lib Ω W) (hsink : L.SinkAccepts) (w : W) (b : Bytes)
    (header : String) :
    writePem L w b header = (none, emit L w [{ type := header, Headers := [], Bytes := b }]) := by
  rw [writePem_eq]
  have h := hsink w { type := header, Headers := [], Bytes := b }
  simp only [emit, List.foldl_cons, List.foldl_nil]
  exact Prod.ext h rfl

theorem emit_append (L : Lib Ω W) (w : W) (xs ys : List Block) :
    emit L w (xs ++ ys) = emit L (emit L w xs) ys := by
  simp [emit, List.foldl_append]

theorem emit_cons (L : Lib Ω W) (w : W) (x : Block) (xs : List Block) :
    emit L w (x :: xs) = emit L (emit L w [x]) xs := by
  simp [emit]

/-- The blocks that the loop of `WriteIntermediates` writes when it is entered at
index `i`: the entries `i, i - 1, ..., 1` of the chain. -/
theorem writeIntermediatesLoop_spec (L : Lib Ω W) (hsink : L.SinkAccepts)
    (chain : List Certificate) :
    ∀ (i : Nat) (w : W), i < chain.length →
      writeIntermediatesLoop L chain i w
        = (none, emit L w ((((chain.take (i + 1)).drop 1).reverse).map certBlock)) := by
  intro i
  induction i with
  | zero =>
    intro w _
    cases chain with
    | nil => simp [writeIntermediatesLoop, emit]
    | cons c cs => simp [writeIntermediatesLoop, emit]
  | succ k ih =>
    intro w hk
    have hget : chain.get? (k + 1) = some (chain.get ⟨k + 1, hk⟩) := List.get?_eq_get hk
    have htake : chain.take (k + 1 + 1) = chain.take (k + 1) ++ [chain.get ⟨k + 1, hk⟩] := by
      rw [List.take_succ]
      simp [List.getElem?_eq_getElem hk]
    have hdrop : (chain.take (k + 1 + 1)).drop 1
        = (chain.take (k + 1)).drop 1 ++ [chain.get ⟨k + 1, hk⟩] := by
      rw [htake, List.drop_append_of_le_length]
      simp only [List.length_take]
      omega
    rw [hdrop]
    simp only [List.reverse_append, List.reverse_singleton, List.singleton_append, List.map_cons]
    rw [emit_cons]
    unfold writeIntermediatesLoop
    rw [hget]
    simp only
    rw [writePem_accepts L hsink]
    simp only
    rw [ih _ (by omega)]
    rfl

/-- On a sink that accepts every write, `WriteIntermediates` writes the chain without
its entry 0, last entry first. -/
theorem WriteIntermediates_emit (L : Lib Ω W) (hsink : L.SinkAccepts) (s : Store) (w : W) :
    s.WriteIntermediates L w
      = (none, emit L w (((s.chain.drop 1).reverse).map certBlock)) := by
  unfold Store.WriteIntermediates
  cases hc : s.chain with
  | nil => simp [writeIntermediatesLoop, emit]
  | cons c cs =>
    have hi : (((c :: cs).length : Int) - 1).toNat = cs.length := by
      simp
    rw [hi, writeIntermediatesLoop_spec L hsink (c :: cs) cs.length w (by simp)]
    have ht : (c :: cs).take (cs.length + 1) = c :: cs := List.take_of_length_le (by simp)
    rw [ht]

/-- On a sink that accepts every write, `WriteRoot` writes entry 0 of the chain, if
there is one. -/
theorem WriteRoot_emit (L : Lib Ω W) (hsink : L.SinkAccepts) (s : Store) (w : W) :
    s.WriteRoot L w = (none, emit L w ((s.chain.take 1).map certBlock)) := by
  unfold Store.WriteRoot
  cases hc : s.chain with
  | nil => simp [emit]
  | cons c cs =>
    simp only [List.length_cons, Nat.add_one_ne_zero, ↓reduceIte, List.get?_cons_zero]
    rw [writePem_accepts L hsink]
    simp [certBlock]

/-- On a sink that accepts every write, `WriteCert` writes the Store's certificate. -/
theorem WriteCert_emit (L : Lib Ω W) (hsink : L.SinkAccepts) (s : Store) (c : Certificate)
    (hc : s.cert = some c) (w : W) :
    s.WriteCert L w = (none, emit L w [certBlock c]) := by
  unfold Store.WriteCert
  rw [hc]
  simp only
  rw [writePem_accepts L hsink]
  rfl

/-- C3: on a sink whose writes all succeed, `WriteIntermediates` returns nil and has
written the `CERTIFICATE` blocks of `chain[len-1], chain[len-2], ..., chain[1]` in that
order (the reverse of the storage order, without `chain[0]`): `len(s.chain) - 1` blocks
when the chain has at least two entries, and nothing when it has zero or one. -/
theorem WriteIntermediates_spec (L : Lib Ω W) (hsink : L.SinkAccepts) (s : Store) (w : W) :
    s.WriteIntermediates L w = (none, emit L w (((s.chain.drop 1).reverse).map certBlock)) ∧
    (2 ≤ s.chain.length →
      (((s.chain.drop 1).reverse).map certBlock).length = s.chain.length - 1) ∧
    (∀ k, k < s.chain.length - 1 →
      (((s.chain.drop 1).reverse).map certBlock).get? k
        = (s.chain.get? (s.chain.length - 1 - k)).map certBlock) ∧
    (s.chain.length ≤ 1 → s.WriteIntermediates L w = (none, w)) := by
  have hmain := WriteIntermediates_emit L hsink s w
  refine ⟨hmain, ?_, ?_, ?_⟩
  · intro _
    simp
  · intro k hk
    simp only [List.get?_eq_getElem?, List.getElem?_map]
    congr 1
    rw [List.getElem?_reverse (by simpa using hk)]
    rw [List.getElem?_drop]
    congr 1
    simp only [List.length_drop]
    omega
  · intro hle
    rw [hmain]
    have : s.chain.drop 1 = [] := by
      apply List.drop_eq_nil_of_le
      exact hle
    rw [this]
    rfl

/-- A chain of three: the entries 2 and 1 are written, in this order. -/
theorem WriteIntermediates_spec_witness :
    (fixture.leaf6.WriteIntermediates fixture.lib []
        = (none, emit fixture.lib [] (((fixture.leaf6.chain.drop 1).reverse).map certBlock)) ∧
      (2 ≤ fixture.leaf6.chain.length →
        (((fixture.leaf6.chain.drop 1).reverse).map certBlock).length
          = fixture.leaf6.chain.length - 1) ∧
      (∀ k, k < fixture.leaf6.chain.length - 1 →
        (((fixture.leaf6.chain.drop 1).reverse).map certBlock).get? k
          = (fixture.leaf6.chain.get? (fixture.leaf6.chain.length - 1 - k)).map certBlock) ∧
      (fixture.leaf6.chain.length ≤ 1 →
        fixture.leaf6.WriteIntermediates fixture.lib [] = (none, []))) ∧
    fixture.leaf6.WriteIntermediates fixture.lib [] = (none, [certBlock fixture.leafCert]) :=
  ⟨WriteIntermediates_spec fixture.lib (fun _ _ => rfl) fixture.leaf6 [], by decide⟩

/-- C4, as stated, fails: the claim names no condition on the sink, and on a sink that
rejects the write `WriteRoot` on a chain that is not empty returns the sink's error and
no block is written. -/
theorem WriteRoot_failing_sink_counterexample :
    fixture.leaf6.chain = [fixture.rootCert, fixture.leafCert] ∧
    fixture.leaf6.WriteRoot fixture.failLib [] = (some "short write", []) :=
  ⟨rfl, by decide⟩

/-- C4, amended: `WriteRoot` on an empty chain leaves the writer as it was and returns
nil, on every sink; on a chain that is not empty it makes exactly one call of
`pem.Encode`, for the block labelled `CERTIFICATE` whose payload is the DER bytes of
`chain[0]`, and returns what that call returns, so on a sink whose writes succeed
exactly this one block is written and nil returned; the Store's own certificate and
the other entries of the chain play no part. -/
theorem WriteRoot_spec (L : Lib Ω W) (s : Store) (w : W) :
    (s.chain = [] → s.WriteRoot L w = (none, w)) ∧
    (∀ c rest, s.chain = c :: rest →
      s.WriteRoot L w
        = L.pemEncode w { type := "CERTIFICATE", Headers := [], Bytes := c.Raw } ∧
      (L.SinkAccepts →
        s.WriteRoot L w
          = (none, emit L w [{ type := "CERTIFICATE", Headers := [], Bytes := c.Raw }]))) := by
  constructor
  · intro h
    simp [Store.WriteRoot, h]
  · intro c rest h
    constructor
    · unfold Store.WriteRoot
      rw [h]
      simp only [List.length_cons, Nat.add_one_ne_zero, ↓reduceIte, List.get?_cons_zero]
      exact writePem_eq L w c.Raw "CERTIFICATE"
    · intro hsink
      rw [WriteRoot_emit L hsink, h]
      rfl

/-- The root of a chain of two is written; the leaf and the intermediate are not. -/
theorem WriteRoot_spec_witness :
    ((fixture.leaf6.chain = [] → fixture.leaf6.WriteRoot fixture.lib [] = (none, [])) ∧
     (∀ c rest, fixture.leaf6.chain = c :: rest →
       fixture.leaf6.WriteRoot fixture.lib []
         = fixture.lib.pemEncode [] { type := "CERTIFICATE", Headers := [], Bytes := c.Raw } ∧
       (fixture.lib.SinkAccepts →
         fixture.leaf6.WriteRoot fixture.lib []
           = (none, emit fixture.lib []
               [{ type := "CERTIFICATE", Headers := [], Bytes := c.Raw }])))) ∧
    fixture.lib.SinkAccepts ∧
    fixture.leaf6.WriteRoot fixture.lib []
      = (none, [{ type := "CERTIFICATE", Headers := [], Bytes := fixture.rootDer }]) ∧
    fixture.root.WriteRoot fixture.lib [] = (none, []) ∧
    fixture.root.WriteRoot fixture.failLib [] = (none, []) :=
  ⟨WriteRoot_spec fixture.lib fixture.leaf6 [], fun _ _ => rfl, by decide, by decide,
    by decide⟩

/-- C10, as stated, fails at the zero value `Store{}`, the value `Load` and `New`
return beside an error: its certificate pointer is nil, `WriteCert` panics on
`s.cert.Raw`, and not one of the `len(s.chain) + 1 = 1` blocks is written. -/
theorem writePath_zero_counterexample :
    fixture.lib.SinkAccepts ∧
    Store.zero.cert = none ∧ Store.zero.chain.length + 1 = 1 ∧
    writePath fixture.lib Store.zero []
      = (some "panic: runtime error: invalid memory address or nil pointer dereference", []) :=
  ⟨fun _ _ => rfl, rfl, rfl, by decide⟩

/-- C10, amended: for a Store whose certificate pointer is not nil (every Store that
`Load` or `New` returned with a nil error) and a sink whose writes succeed, `WriteCert`,
then `WriteIntermediates`, then `WriteRoot` on the same writer write exactly the
`CERTIFICATE` blocks of the reverse of `s.chain` followed by `s.cert`: the leaf first,
the root last, every certificate of the path once, `len(s.chain) + 1` blocks. -/
theorem writePath_spec (L : Lib Ω W) (hsink : L.SinkAccepts) (s : Store) (c : Certificate)
    (hc : s.cert = some c) (w : W) :
    writePath L s w = (none, emit L w (((s.chain ++ [c]).reverse).map certBlock)) ∧
    (((s.chain ++ [c]).reverse).map certBlock).length = s.chain.length + 1 := by
  constructor
  · unfold writePath
    rw [WriteCert_emit L hsink s c hc]
    simp only
    rw [WriteIntermediates_emit L hsink]
    simp only
    rw [WriteRoot_emit L hsink, ← emit_append, ← emit_append]
    congr 2
    cases s.chain with
    | nil => simp
    | cons c cs => simp
  · simp

/-- The path of `v6.test`: leaf, intermediate, root. -/
theorem writePath_spec_witness :
    (writePath fixture.lib fixture.leaf6 []
        = (none, emit fixture.lib []
            (((fixture.leaf6.chain ++ [fixture.leaf6Cert]).reverse).map certBlock)) ∧
      (((fixture.leaf6.chain ++ [fixture.leaf6Cert]).reverse).map certBlock).length
        = fixture.leaf6.chain.length + 1) ∧
    writePath fixture.lib fixture.leaf6 []
      = (none, [certBlock fixture.leaf6Cert, certBlock fixture.leafCert,
                certBlock fixture.rootCert]) :=
  ⟨writePath_spec fixture.lib (fun _ _ => rfl) fixture.leaf6 fixture.leaf6Cert rfl [],
    by decide⟩

/-- C8: on a sink whose writes succeed, `WriteKey` writes exactly one block labelled
`RSA PRIVATE KEY` with the PKCS#1 marshalling as payload when the key is an RSA key,
exactly one block labelled `EC PRIVATE KEY` with the SEC1 marshalling when it is an
elliptic-curve key that marshals, and for a key of any other type it returns the
unknown-key-type error and the writer is as it was. -/
theorem WriteKey_spec (L : Lib Ω W) (hsink : L.SinkAccepts) (s : Store) (w : W) :
    (∀ k, s.key = .rsa k →
      s.WriteKey L w = (none, emit L w [{ type := "RSA PRIVATE KEY", Headers := [],
                                          Bytes := L.marshalPKCS1PrivateKey k }])) ∧
    (∀ k buf, s.key = .ecdsa k → L.marshalECPrivateKey k = .ok buf →
      s.WriteKey L w = (none, emit L w [{ type := "EC PRIVATE KEY", Headers := [],
                                          Bytes := buf }])) ∧
    (∀ desc, s.key = .other desc →
      s.WriteKey L w = (some ("Unknown private key type " ++ L.sprintKey s.key), w)) := by
  refine ⟨?_, ?_, ?_⟩
  · intro k hk
    unfold Store.WriteKey
    rw [hk]
    exact writePem_accepts L hsink _ _ _
  · intro k buf hk hbuf
    unfold Store.WriteKey
    rw [hk]
    simp only [hbuf]
    exact writePem_accepts L hsink _ _ _
  · intro desc hk
    unfold Store.WriteKey
    rw [hk]

/-- The RSA key of the root, an elliptic-curve key and an Ed25519 key. -/
theorem WriteKey_spec_witness :
    ((∀ k, fixture.root.key = .rsa k →
        fixture.root.WriteKey fixture.lib []
          = (none, emit fixture.lib [] [⟨"RSA PRIVATE KEY", [], fixture.lib.marshalPKCS1PrivateKey k⟩])) ∧
      (∀ k buf, fixture.root.key = .ecdsa k → fixture.lib.marshalECPrivateKey k = .ok buf →
        fixture.root.WriteKey fixture.lib []
          = (none, emit fixture.lib [] [⟨"EC PRIVATE KEY", [], buf⟩])) ∧
      (∀ desc, fixture.root.key = .other desc →
        fixture.root.WriteKey fixture.lib []
          = (some ("Unknown private key type " ++ fixture.lib.sprintKey fixture.root.key), []))) ∧
    fixture.root.WriteKey fixture.lib []
      = (none, [{ type := "RSA PRIVATE KEY", Headers := [], Bytes := fixture.pkcs1Der }]) ∧
    Store.WriteKey fixture.lib
        { key := .ecdsa fixture.ecKey, cert := some fixture.rootCert, chain := [] } []
      = (none, [{ type := "EC PRIVATE KEY", Headers := [], Bytes := fixture.sec1Der }]) ∧
    Store.WriteKey fixture.lib
        { key := .other "ed25519", cert := some fixture.rootCert, chain := [] } []
      = (some "Unknown private key type ed25519", []) :=
  ⟨WriteKey_spec fixture.lib (fun _ _ => rfl) fixture.root [], by decide, by decide, by decide⟩

/-! ## Load -/

/-- C5: malformed input rejection.  If the certificate bytes do not decode as PEM, or
their first block is not labelled `CERTIFICATE`, or the key bytes do not decode as PEM,
or the key block is labelled neither `PRIVATE KEY` nor `RSA PRIVATE KEY` nor
`EC PRIVATE KEY`, then `Load` returns an error that is not nil, with `Store{}`: no Store
is built and the process goes on. -/
theorem Load_rejects_malformed (L : Lib Ω W) (certPem keyPem : Bytes)
    (h : L.pemDecode certPem = none ∨
         (∃ b, L.pemDecode certPem = some b ∧ b.type ≠ "CERTIFICATE") ∨
         L.pemDecode keyPem = none ∨
         (∃ b, L.pemDecode keyPem = some b ∧ b.type ≠ "PRIVATE KEY" ∧
            b.type ≠ "RSA PRIVATE KEY" ∧ b.type ≠ "EC PRIVATE KEY")) :
    ∃ err, Load L certPem keyPem = .error err := by
  unfold Load
  cases hc : L.pemDecode certPem with
  | none => exact ⟨_, rfl⟩
  | some cb =>
    simp only
    by_cases hl : cb.type = "CERTIFICATE"
    · rw [if_neg (not_not.mpr hl)]
      cases hp : L.parseCertificate cb.Bytes with
      | error e => exact ⟨_, rfl⟩
      | ok cert =>
        simp only
        cases hk : L.pemDecode keyPem with
        | none => exact ⟨_, rfl⟩
        | some kb =>
          simp only
          rcases h with h | ⟨b, hb, hne⟩ | h | ⟨b, hb, h1, h2, h3⟩
          · rw [hc] at h
            cases h
          · rw [hc] at hb
            cases hb
            exact absurd hl hne
          · rw [hk] at h
            cases h
          · rw [hk] at hb
            cases hb
            rw [if_neg h1, if_neg h2, if_neg h3]
            exact ⟨_, rfl⟩
    · rw [if_pos hl]
      exact ⟨_, rfl⟩

/-- Bytes that are not PEM, a block labelled `PUBLIC KEY` in either place. -/
theorem Load_rejects_malformed_witness :
    (∃ err, Load fixture.lib fixture.notPem fixture.keyPem = .error err) ∧
    (∃ err, Load fixture.lib fixture.pubPem fixture.keyPem = .error err) ∧
    (∃ err, Load fixture.lib fixture.certPem fixture.notPem = .error err) ∧
    (∃ err, Load fixture.lib fixture.certPem fixture.pubPem = .error err) :=
  ⟨Load_rejects_malformed fixture.lib fixture.notPem fixture.keyPem (Or.inl (by decide)),
   Load_rejects_malformed fixture.lib fixture.pubPem fixture.keyPem
     (Or.inr (Or.inl ⟨_, rfl, by decide⟩)),
   Load_rejects_malformed fixture.lib fixture.certPem fixture.notPem
     (Or.inr (Or.inr (Or.inl (by decide)))),
   Load_rejects_malformed fixture.lib fixture.certPem fixture.pubPem
     (Or.inr (Or.inr (Or.inr ⟨_, rfl, by decide, by decide, by decide⟩)))⟩

theorem loadFinish_fatal (cert : Certificate) (r : Except Error Key) (err : Error) :
    loadFinish cert r = .fatal err ↔ r = .error err := by
  cases r with
  | error e => simp [loadFinish]
  | ok k => simp [loadFinish]

theorem loadFinish_ok (cert : Certificate) (r : Except Error Key) (s : Store) :
    loadFinish cert r = .ok s ↔
      ∃ k, r = .ok k ∧ s = { key := k, cert := some cert, chain := [] } := by
  cases r with
  | error e => simp [loadFinish]
  | ok k =>
    simp only [loadFinish, Outcome.ok.injEq, Except.ok.injEq, exists_eq_left']
    exact eq_comm

theorem map_eq_error {α β : Type} (f : α → β) (r : Except Error α) (err : Error) :
    r.map f = .error err ↔ r = .error err := by
  cases r with
  | error e => simp [Except.map]
  | ok k => simp [Except.map]

theorem map_eq_ok {α β : Type} (f : α → β) (r : Except Error α) (b : β) :
    r.map f = .ok b ↔ ∃ a, r = .ok a ∧ b = f a := by
  cases r with
  | error e => simp [Except.map]
  | ok k =>
    simp only [Except.map, Except.ok.injEq, exists_eq_left']
    exact eq_comm

/-- When `Load` ends the process, and only then, both blocks decoded, the certificate
parsed, and the key block failed to parse under its label. -/
theorem Load_fatal_inv (L : Lib Ω W) (certPem keyPem : Bytes) (err : Error) :
    Load L certPem keyPem = .fatal err ↔
    ∃ cb cert kb, L.pemDecode certPem = some cb ∧ cb.type = "CERTIFICATE" ∧
      L.parseCertificate cb.Bytes = .ok cert ∧ L.pemDecode keyPem = some kb ∧
      ((kb.type = "PRIVATE KEY" ∧ L.parsePKCS8PrivateKey kb.Bytes = .error err) ∨
       (kb.type = "RSA PRIVATE KEY" ∧ L.parsePKCS1PrivateKey kb.Bytes = .error err) ∨
       (kb.type = "EC PRIVATE KEY" ∧ L.parseECPrivateKey kb.Bytes = .error err)) := by
  unfold Load
  cases hc : L.pemDecode certPem with
  | none => simp
  | some cb =>
    simp only
    by_cases hl : cb.type = "CERTIFICATE"
    · rw [if_neg (not_not.mpr hl)]
      cases hp : L.parseCertificate cb.Bytes with
      | error e => simp [hp]
      | ok cert =>
        simp only
        cases hk : L.pemDecode keyPem with
        | none => simp
        | some kb =>
          simp only
          by_cases h1 : kb.type = "PRIVATE KEY"
          · rw [if_pos h1, loadFinish_fatal]
            simp [hl, hp, h1]
          · rw [if_neg h1]
            by_cases h2 : kb.type = "RSA PRIVATE KEY"
            · rw [if_pos h2, loadFinish_fatal, map_eq_error]
              simp [hl, hp, h2]
            · rw [if_neg h2]
              by_cases h3 : kb.type = "EC PRIVATE KEY"
              · rw [if_pos h3, loadFinish_fatal, map_eq_error]
                simp [hl, hp, h3]
              · rw [if_neg h3]
                simp [h1, h2, h3]
    · rw [if_pos hl]
      simp [hl]

/-- What a successful `Load` did. -/
theorem Load_ok_inv (L : Lib Ω W) (certPem keyPem : Bytes) (s : Store) :
    Load L certPem keyPem = .ok s ↔
    ∃ cb kb cert, L.pemDecode certPem = some cb ∧ cb.type = "CERTIFICATE" ∧
      L.parseCertificate cb.Bytes = .ok cert ∧ s.cert = some cert ∧
      L.pemDecode keyPem = some kb ∧
      s.chain = [] ∧
      ((kb.type = "PRIVATE KEY" ∧ L.parsePKCS8PrivateKey kb.Bytes = .ok s.key) ∨
       (kb.type = "RSA PRIVATE KEY" ∧
          ∃ k, L.parsePKCS1PrivateKey kb.Bytes = .ok k ∧ s.key = .rsa k) ∨
       (kb.type = "EC PRIVATE KEY" ∧
          ∃ k, L.parseECPrivateKey kb.Bytes = .ok k ∧ s.key = .ecdsa k)) := by
  have hstore : ∀ (cert : Certificate), s.cert = some cert →
      s.chain = [] → s = { key := s.key, cert := some cert, chain := [] } := by
    intro cert h1 h2
    cases s
    simp_all
  have hne12 : ("PRIVATE KEY" : String) ≠ "RSA PRIVATE KEY" := by decide
  have hne13 : ("PRIVATE KEY" : String) ≠ "EC PRIVATE KEY" := by decide
  have hne23 : ("RSA PRIVATE KEY" : String) ≠ "EC PRIVATE KEY" := by decide
  unfold Load
  cases hc : L.pemDecode certPem with
  | none => simp
  | some cb =>
    simp only
    by_cases hl : cb.type = "CERTIFICATE"
    · rw [if_neg (not_not.mpr hl)]
      cases hp : L.parseCertificate cb.Bytes with
      | error e => simp [hp]
      | ok cert =>
        simp only
        cases hk : L.pemDecode keyPem with
        | none => simp
        | some kb =>
          simp only
          by_cases h1 : kb.type = "PRIVATE KEY"
          · rw [if_pos h1, loadFinish_ok]
            constructor
            · rintro ⟨k, hk8, hs⟩
              subst hs
              exact ⟨cb, kb, cert, rfl, hl, hp, rfl, rfl, rfl, Or.inl ⟨h1, hk8⟩⟩
            · rintro ⟨cb1, kb1, cert1, hcb, _, hp1, hsc, hkb, hch, hor⟩
              cases hcb
              cases hkb
              rw [hp] at hp1
              cases hp1
              rcases hor with ⟨_, h8⟩ | ⟨h, _⟩ | ⟨h, _⟩
              · exact ⟨s.key, h8, hstore cert hsc hch⟩
              · rw [h1] at h
                exact absurd h hne12
              · rw [h1] at h
                exact absurd h hne13
          · rw [if_neg h1]
            by_cases h2 : kb.type = "RSA PRIVATE KEY"
            · rw [if_pos h2, loadFinish_ok]
              constructor
              · rintro ⟨k, hk1, hs⟩
                subst hs
                obtain ⟨a, ha, hka⟩ := (map_eq_ok _ _ _).mp hk1
                exact ⟨cb, kb, cert, rfl, hl, hp, rfl, rfl, rfl, Or.inr (Or.inl ⟨h2, a, ha, hka⟩)⟩
              · rintro ⟨cb1, kb1, cert1, hcb, _, hp1, hsc, hkb, hch, hor⟩
                cases hcb
                cases hkb
                rw [hp] at hp1
                cases hp1
                rcases hor with ⟨h, _⟩ | ⟨_, a, ha, hka⟩ | ⟨h, _⟩
                · exact absurd h h1
                · exact ⟨s.key, (map_eq_ok _ _ _).mpr ⟨a, ha, hka⟩, hstore cert hsc hch⟩
                · rw [h2] at h
                  exact absurd h hne23
            · rw [if_neg h2]
              by_cases h3 : kb.type = "EC PRIVATE KEY"
              · rw [if_pos h3, loadFinish_ok]
                constructor
                · rintro ⟨k, hk1, hs⟩
                  subst hs
                  obtain ⟨a, ha, hka⟩ := (map_eq_ok _ _ _).mp hk1
                  exact ⟨cb, kb, cert, rfl, hl, hp, rfl, rfl, rfl, Or.inr (Or.inr ⟨h3, a, ha, hka⟩)⟩
                · rintro ⟨cb1, kb1, cert1, hcb, _, hp1, hsc, hkb, hch, hor⟩
                  cases hcb
                  cases hkb
                  rw [hp] at hp1
                  cases hp1
                  rcases hor with ⟨h, _⟩ | ⟨h, _⟩ | ⟨_, a, ha, hka⟩
                  · exact absurd h h1
                  · exact absurd h h2
                  · exact ⟨s.key, (map_eq_ok _ _ _).mpr ⟨a, ha, hka⟩, hstore cert hsc hch⟩
              · rw [if_neg h3]
                constructor
                · intro h
                  cases h
                · rintro ⟨cb1, kb1, cert1, _, _, _, _, hkb, _, hor⟩
                  cases hkb
                  rcases hor with ⟨h, _⟩ | ⟨h, _⟩ | ⟨h, _⟩
                  · exact absurd h h1
                  · exact absurd h h2
                  · exact absurd h h3
    · rw [if_pos hl]
      simp [hl]

/-- C9: `Load` ends the process in `log.Fatal`, returning neither a Store nor an error,
exactly when the certificate bytes decode to a `CERTIFICATE` block that parses and the
key bytes decode to a block labelled `PRIVATE KEY`, `RSA PRIVATE KEY` or
`EC PRIVATE KEY` whose bytes fail to parse under that label; on every other input
`Load` returns a Store or an error. -/
theorem Load_fatal_iff (L : Lib Ω W) (certPem keyPem : Bytes) :
    (∃ err, Load L certPem keyPem = .fatal err) ↔
    ∃ cb cert kb, L.pemDecode certPem = some cb ∧ cb.type = "CERTIFICATE" ∧
      L.parseCertificate cb.Bytes = .ok cert ∧ L.pemDecode keyPem = some kb ∧
      keyParseFails L kb := by
  constructor
  · rintro ⟨err, h⟩
    obtain ⟨cb, cert, kb, h1, h2, h3, h4, h5⟩ := (Load_fatal_inv L certPem keyPem err).mp h
    refine ⟨cb, cert, kb, h1, h2, h3, h4, ?_⟩
    rcases h5 with ⟨ha, hb⟩ | ⟨ha, hb⟩ | ⟨ha, hb⟩
    · exact Or.inl ⟨ha, err, hb⟩
    · exact Or.inr (Or.inl ⟨ha, err, hb⟩)
    · exact Or.inr (Or.inr ⟨ha, err, hb⟩)
  · rintro ⟨cb, cert, kb, h1, h2, h3, h4, h5⟩
    rcases h5 with ⟨ha, err, hb⟩ | ⟨ha, err, hb⟩ | ⟨ha, err, hb⟩
    · exact ⟨err, (Load_fatal_inv L certPem keyPem err).mpr
        ⟨cb, cert, kb, h1, h2, h3, h4, Or.inl ⟨ha, hb⟩⟩⟩
    · exact ⟨err, (Load_fatal_inv L certPem keyPem err).mpr
        ⟨cb, cert, kb, h1, h2, h3, h4, Or.inr (Or.inl ⟨ha, hb⟩)⟩⟩
    · exact ⟨err, (Load_fatal_inv L certPem keyPem err).mpr
        ⟨cb, cert, kb, h1, h2, h3, h4, Or.inr (Or.inr ⟨ha, hb⟩)⟩⟩

/-- A block labelled `RSA PRIVATE KEY` whose bytes are not a key ends the process. -/
theorem Load_fatal_iff_witness :
    (∃ err, Load fixture.lib fixture.certPem fixture.brokenKeyPem = .fatal err) ∧
    Load fixture.lib fixture.certPem fixture.brokenKeyPem
      = .fatal "x509: failed to parse private key" :=
  ⟨(Load_fatal_iff fixture.lib fixture.certPem fixture.brokenKeyPem).mpr
      ⟨_, _, _, rfl, rfl, rfl, rfl, Or.inr (Or.inl ⟨rfl, _, rfl⟩)⟩,
   by decide⟩

/-! ## Round trip -/

theorem fixture_rawIsInput : fixture.lib.RawIsInput := by
  intro der c h
  simp only [fixture.lib, fixture.parseCertificate] at h
  split_ifs at h with h1 h2 h3
  · cases h
    rw [h1]
    rfl
  · cases h
    rw [h2]
    rfl
  · cases h
    rw [h3]
    rfl

theorem fixture_x509RoundTrip : fixture.lib.X509RoundTrip := by
  intro ω template parent pub priv der ω1 cert hc hp _
  simp only [fixture.lib, fixture.createCertificate] at hc
  split_ifs at hc with h1 h2
  · simp only [Prod.mk.injEq, Except.ok.injEq] at hc
    obtain ⟨hder, _⟩ := hc
    subst hder
    have hcert : cert = fixture.leafCert := by
      have : fixture.lib.parseCertificate fixture.leafDer = .ok fixture.leafCert := by rfl
      rw [this] at hp
      cases hp
      rfl
    subst hcert
    subst h1
    decide
  · simp only [Prod.mk.injEq, Except.ok.injEq] at hc
    obtain ⟨hder, _⟩ := hc
    subst hder
    have hcert : cert = fixture.leaf6Cert := by
      have : fixture.lib.parseCertificate fixture.leaf6Der = .ok fixture.leaf6Cert := by rfl
      rw [this] at hp
      cases hp
      rfl
    subst hcert
    subst h2
    decide
  · simp at hc

/-- C6, as stated, fails: the key of the root is loaded from a block labelled
`PRIVATE KEY` (PKCS#8), and `WriteKey` writes a block labelled `RSA PRIVATE KEY` whose
payload, the PKCS#1 marshalling, is not the payload of the loaded block. -/
theorem roundtrip_key_counterexample :
    fixture.lib.RawIsInput ∧ fixture.lib.SinkAccepts ∧
    Load fixture.lib fixture.certPem fixture.keyPem = .ok fixture.root ∧
    fixture.lib.pemDecode fixture.keyPem
      = some { type := "PRIVATE KEY", Headers := [], Bytes := fixture.pkcs8Der } ∧
    fixture.root.WriteKey fixture.lib []
      = (none, [{ type := "RSA PRIVATE KEY", Headers := [], Bytes := fixture.pkcs1Der }]) ∧
    fixture.pkcs1Der ≠ fixture.pkcs8Der :=
  ⟨fixture_rawIsInput, fun _ _ => rfl, by decide, by decide, by decide, by decide⟩

/-- C6, amended: when `Load` succeeds, `WriteCert` writes one `CERTIFICATE` block whose
payload is the DER bytes of the loaded certificate block (`x509.ParseCertificate` keeps
its input in `Raw`); the key of the Store is the key parsed from the loaded key block
under its label, and `WriteKey` writes its PKCS#1 marshalling under the label
`RSA PRIVATE KEY` or its SEC1 marshalling under `EC PRIVATE KEY`. -/
theorem Load_then_export (L : Lib Ω W) (hraw : L.RawIsInput) (hsink : L.SinkAccepts)
    (certPem keyPem : Bytes) (s : Store) (w : W)
    (h : Load L certPem keyPem = .ok s) :
    ∃ cb kb, L.pemDecode certPem = some cb ∧ L.pemDecode keyPem = some kb ∧
      s.WriteCert L w
        = (none, emit L w [{ type := "CERTIFICATE", Headers := [], Bytes := cb.Bytes }]) ∧
      ((kb.type = "PRIVATE KEY" ∧ L.parsePKCS8PrivateKey kb.Bytes = .ok s.key) ∨
       (kb.type = "RSA PRIVATE KEY" ∧
          ∃ k, L.parsePKCS1PrivateKey kb.Bytes = .ok k ∧ s.key = .rsa k) ∨
       (kb.type = "EC PRIVATE KEY" ∧
          ∃ k, L.parseECPrivateKey kb.Bytes = .ok k ∧ s.key = .ecdsa k)) ∧
      (∀ k, s.key = .rsa k →
        s.WriteKey L w
          = (none, emit L w [⟨"RSA PRIVATE KEY", [], L.marshalPKCS1PrivateKey k⟩])) ∧
      (∀ k buf, s.key = .ecdsa k → L.marshalECPrivateKey k = .ok buf →
        s.WriteKey L w = (none, emit L w [⟨"EC PRIVATE KEY", [], buf⟩])) := by
  obtain ⟨cb, kb, cert, h1, _, h3, hsc, h4, _, h6⟩ := (Load_ok_inv L certPem keyPem s).mp h
  refine ⟨cb, kb, h1, h4, ?_, h6, ?_, ?_⟩
  · rw [WriteCert_emit L hsink s cert hsc, certBlock, hraw cb.Bytes cert h3]
  · intro k hk
    unfold Store.WriteKey
    rw [hk]
    exact writePem_accepts L hsink _ _ _
  · intro k buf hk hbuf
    unfold Store.WriteKey
    rw [hk]
    simp only [hbuf]
    exact writePem_accepts L hsink _ _ _

/-- The root loaded from `certPem` and `keyPem`, exported. -/
theorem Load_then_export_witness :
    (∃ cb kb, fixture.lib.pemDecode fixture.certPem = some cb ∧
      fixture.lib.pemDecode fixture.keyPem = some kb ∧
      fixture.root.WriteCert fixture.lib []
        = (none, emit fixture.lib []
            [{ type := "CERTIFICATE", Headers := [], Bytes := cb.Bytes }]) ∧
      ((kb.type = "PRIVATE KEY" ∧
          fixture.lib.parsePKCS8PrivateKey kb.Bytes = .ok fixture.root.key) ∨
       (kb.type = "RSA PRIVATE KEY" ∧
          ∃ k, fixture.lib.parsePKCS1PrivateKey kb.Bytes = .ok k ∧ fixture.root.key = .rsa k) ∨
       (kb.type = "EC PRIVATE KEY" ∧
          ∃ k, fixture.lib.parseECPrivateKey kb.Bytes = .ok k ∧ fixture.root.key = .ecdsa k)) ∧
      (∀ k, fixture.root.key = .rsa k →
        fixture.root.WriteKey fixture.lib []
          = (none, emit fixture.lib []
              [⟨"RSA PRIVATE KEY", [], fixture.lib.marshalPKCS1PrivateKey k⟩])) ∧
      (∀ k buf, fixture.root.key = .ecdsa k → fixture.lib.marshalECPrivateKey k = .ok buf →
        fixture.root.WriteKey fixture.lib []
          = (none, emit fixture.lib [] [⟨"EC PRIVATE KEY", [], buf⟩]))) ∧
    fixture.root.WriteCert fixture.lib []
      = (none, [{ type := "CERTIFICATE", Headers := [], Bytes := fixture.rootDer }]) :=
  ⟨Load_then_export fixture.lib fixture_rawIsInput (fun _ _ => rfl) fixture.certPem
      fixture.keyPem fixture.root [] (by decide),
   by decide⟩

/-! ## Field propagation -/

/-- C7, as stated, fails: for the supplied address `0:0:0:0:0:0:0:1` the issued
certificate has one IP SAN, whose textual form is `::1`, not the supplied string. -/
theorem New_ip_text_counterexample :
    fixture.lib.X509RoundTrip ∧
    fixture.root.New fixture.lib 0 "v6.test" [] ["0:0:0:0:0:0:0:1"]
      = (.ok { key := .rsa fixture.childKey, cert := some fixture.leaf6Cert,
               chain := [fixture.rootCert] }, 4) ∧
    fixture.leaf6Cert.IPAddresses.map fixture.lib.ipString = ["::1"] ∧
    (["::1"] : List String) ≠ ["0:0:0:0:0:0:0:1"] :=
  ⟨fixture_x509RoundTrip, rfl, by decide, by decide⟩

/-- C7, amended: when `New` succeeds, the Subject CommonName of the issued certificate
is `commonName`, its DNS SANs are `dnsNames` in the same order, it has one IP SAN per
supplied address, whose textual form is that of the address `net.ParseIP` read from the
supplied string, and its Organization, Country, Locality, OrganizationalUnit and
Province are `["jmn.link"]`, `["CA"]`, `["Kingston"]`, `["IT"]`, `["Ontario"]`
whatever the input (given that `crypto/x509` parses back what it signed). -/
theorem New_field_propagation (L : Lib Ω W) (hrt : L.X509RoundTrip) (s : Store) (ω : Ω)
    (commonName : String) (dnsNames ipAddresses : List String) (child : Store) (ω1 : Ω)
    (h : s.New L ω commonName dnsNames ipAddresses = (.ok child, ω1)) :
    ∃ cert, child.cert = some cert ∧
      cert.Subject.CommonName = commonName ∧
      cert.DNSNames = dnsNames ∧
      cert.IPAddresses.length = ipAddresses.length ∧
      cert.IPAddresses.map L.ipString
        = ipAddresses.map (fun v => L.ipString (L.parseIP v)) ∧
      cert.Subject.Organization = ["jmn.link"] ∧
      cert.Subject.Country = ["CA"] ∧
      cert.Subject.Locality = ["Kingston"] ∧
      cert.Subject.OrganizationalUnit = ["IT"] ∧
      cert.Subject.Province = ["Ontario"] := by
  obtain ⟨key, serial, now, ω3, der, parent, cert, _, hc, hp, hcc, _, _⟩ :=
    New_ok_inv L s ω commonName dnsNames ipAddresses child ω1 h
  have hsv : (newTemplate (serial : Int) commonName dnsNames (ipAddresses.map L.parseIP) now
      (L.addDate now 100 0 0)).Subject.SingleValued := by
    simp [newTemplate, Name.SingleValued]
  obtain ⟨hsub, hdns, hip⟩ := hrt ω3 _ parent key.Public s.key der ω1 cert hc hp hsv
  have hip2 : cert.IPAddresses.map L.ipString
      = ipAddresses.map (fun v => L.ipString (L.parseIP v)) := by
    rw [hip]
    simp [newTemplate]
  refine ⟨cert, hcc, ?_, ?_, ?_, hip2, ?_, ?_, ?_, ?_, ?_⟩
  · rw [hsub]
    rfl
  · rw [hdns]
    rfl
  · have := congrArg List.length hip2
    simpa using this
  · rw [hsub]
    rfl
  · rw [hsub]
    rfl
  · rw [hsub]
    rfl
  · rw [hsub]
    rfl
  · rw [hsub]
    rfl

/-- The issuance of the package test: `test.com`, `a.b.c.com`, `1.2.3.4`. -/
theorem New_field_propagation_witness :
    (∃ cert, fixture.leaf.cert = some cert ∧
      cert.Subject.CommonName = "test.com" ∧
      cert.DNSNames = ["a.b.c.com"] ∧
      cert.IPAddresses.length = ["1.2.3.4"].length ∧
      cert.IPAddresses.map fixture.lib.ipString
        = ["1.2.3.4"].map (fun v => fixture.lib.ipString (fixture.lib.parseIP v)) ∧
      cert.Subject.Organization = ["jmn.link"] ∧
      cert.Subject.Country = ["CA"] ∧
      cert.Subject.Locality = ["Kingston"] ∧
      cert.Subject.OrganizationalUnit = ["IT"] ∧
      cert.Subject.Province = ["Ontario"]) ∧
    fixture.leafCert.IPAddresses.map fixture.lib.ipString = ["1.2.3.4"] :=
  ⟨New_field_propagation fixture.lib fixture_x509RoundTrip fixture.root 0 "test.com"
      ["a.b.c.com"] ["1.2.3.4"] fixture.leaf 4 rfl,
   by decide⟩

end certutil
